import Mathlib

/-!
Shallow embedding of `src/main.py` (covalent-api-example): a pipeline that
fetches per-ticker historical prices, flattens them into a table, derives a
per-ticker summary, and enriches it with ratio and profit columns.

Modelling conventions:
* prices are exact rationals (the source uses floats; all claims are stated
  up to floating-point tolerance);
* calendar dates are integers that grow with time (e.g. 20210101), standing
  for the values produced by `pd.to_datetime`; `pd.to_numeric` and
  `pd.to_datetime` are identities on these already-typed fields;
* an HTTP response is its status code plus its parsed JSON body;
* a pandas DataFrame indexed by ticker is `SummaryTable`: the eight summary
  statistics are `rows`, and columns later assigned with `df[name] = values`
  live in `extra` in assignment order (assignment overwrites an existing
  column in place, else appends);
* a raised exception is the `.error` case of `Except String`.
-/

/-- One record of the `data.prices` array of a Covalent API response:
`date`, `price` and the nested `contract_metadata.contract_ticker_symbol`. -/
structure PriceSampleRaw where
  date : Int
  price : ℚ
  contract_ticker_symbol : String
deriving DecidableEq, Repr

/-- The parsed JSON body returned for one ticker: its `data.prices` array. -/
structure RawHistory where
  prices : List PriceSampleRaw
deriving DecidableEq, Repr

/-- An HTTP response: status code and parsed body. -/
structure Response where
  status_code : Nat
  body : RawHistory
deriving DecidableEq, Repr

/-- A row of the flat working table built by `historical_prices_to_df`:
columns `date`, `price`, `ticker`. -/
structure PricePoint where
  date : Int
  price : ℚ
  ticker : String
deriving DecidableEq, Repr

/-- The per-ticker summary statistics of `make_table_df`, fields listed in
the column order produced by `sort_index(1)`. -/
structure TickerSummary where
  date_first : Int
  date_last : Int
  date_max : Int
  date_min : Int
  price_first : ℚ
  price_last : ℚ
  price_max : ℚ
  price_min : ℚ
deriving DecidableEq, Repr

/-- A summary DataFrame indexed by ticker: `rows` are the eight summary
columns keyed by ticker; `extra` are the flat columns later assigned by
`df[name] = values`, in assignment order. -/
structure SummaryTable where
  rows : List (String × TickerSummary)
  extra : List (String × List ℚ)
deriving DecidableEq, Repr

/-- The message of the exception raised on a non-200 response:
`f"ticker: {ticker}, status_code: {resp.status_code}"`. -/
def fetchErrorMsg (ticker : String) (status_code : Nat) : String :=
  "ticker: " ++ ticker ++ ", status_code: " ++ toString status_code

/-- Embeds `get_token_price_history`: one GET for one ticker; on any status
other than 200 it raises an exception naming the ticker and the status code,
otherwise it returns the parsed JSON body. The ambient date range and API key
only shape the request, not the control flow, so the response is a function
of the ticker. -/
def get_token_price_history (ticker : String) (resp : Response) :
    Except String RawHistory :=
  if resp.status_code ≠ 200 then
    .error (fetchErrorMsg ticker resp.status_code)
  else
    .ok resp.body

/-- The task list built by `get_all_token_prices`: one
`get_token_price_history` task per element of `ticker_list`, in list order. -/
def fetch_tasks (fetch : String → Response) (ticker_list : List String) :
    List (Except String RawHistory) :=
  ticker_list.map (fun t => get_token_price_history t (fetch t))

/-- Embeds `asyncio.gather(*tasks)`: waits for every task and collects the
results in task order; if any task raised, the whole batch raises that
task's exception (the source surfaces one failing task's exception; the
model picks the first in list order). -/
def gather_results : List (Except String RawHistory) →
    Except String (List RawHistory)
  | [] => .ok []
  | t :: ts => do
      let x ← t
      let xs ← gather_results ts
      .ok (x :: xs)

/-- Embeds `get_all_token_prices`: plans one task per ticker and gathers. -/
def get_all_token_prices (fetch : String → Response)
    (ticker_list : List String) : Except String (List RawHistory) :=
  gather_results (fetch_tasks fetch ticker_list)

/-- The rows produced by
`json_normalize(token_prices, record_path=[["data", "prices"]])` followed by
the column selection and renaming: one row per price sample of each history,
in history order, with the nested contract ticker symbol projected onto the
`ticker` column. -/
def flattenRows (token_prices : List RawHistory) : List PricePoint :=
  token_prices.flatMap
    (fun h => h.prices.map
      (fun r => ⟨r.date, r.price, r.contract_ticker_symbol⟩))

/-- Embeds `historical_prices_to_df`. When every history is empty the
normalized frame has no columns at all and the column selection
`df.loc[:, [...]]` raises a `KeyError`; otherwise the selected and renamed
rows are returned with `price` numeric and `date` a calendar date. -/
def historical_prices_to_df (token_prices : List RawHistory) :
    Except String (List PricePoint) :=
  if flattenRows token_prices = [] then
    .error "KeyError: none of [date, price, contract_metadata.contract_ticker_symbol] are in the columns"
  else
    .ok (flattenRows token_prices)

/-- Embeds `df.groupby("ticker")["price"].idxmax()` restricted to one group:
the first row of the group attaining the maximal price (pandas `idxmax`
returns the first index of the maximum). -/
def argmaxRow (p : PricePoint) (ps : List PricePoint) : PricePoint :=
  ps.foldl (fun best q => if best.price < q.price then q else best) p

/-- Embeds `idxmin` restricted to one group: the first row of the group
attaining the minimal price. -/
def argminRow (p : PricePoint) (ps : List PricePoint) : PricePoint :=
  ps.foldl (fun best q => if q.price < best.price then q else best) p

/-- Row order used by `df.sort_values("date")`: ascending dates. -/
def dateLe (a b : PricePoint) : Prop :=
  a.date ≤ b.date

instance : DecidableRel dateLe := fun a b => Int.decLe a.date b.date

instance : IsTotal PricePoint dateLe :=
  ⟨fun a b => Int.le_total a.date b.date⟩

instance : IsTrans PricePoint dateLe :=
  ⟨fun _ _ _ hab hbc => le_trans hab hbc⟩

instance : IsRefl PricePoint dateLe :=
  ⟨fun a => le_refl a.date⟩

/-- The summary of one non-empty ticker group: the `min`/`max` pairs come
from the `idxmin`/`idxmax` rows and the `first`/`last` pairs from the group
sorted by date ascending (`sort_values("date")` then `agg(["first","last"])`
on both the `date` and the `price` column). The empty case never arises for
a ticker present in the table. -/
def summarize : List PricePoint → TickerSummary
  | [] => ⟨0, 0, 0, 0, 0, 0, 0, 0⟩
  | p :: ps =>
      let mx := argmaxRow p ps
      let mn := argminRow p ps
      let sorted := List.insertionSort dateLe (p :: ps)
      let f := sorted.headD p
      let l := sorted.getLastD p
      ⟨f.date, l.date, mx.date, mn.date, f.price, l.price, mx.price, mn.price⟩

/-- The group keys of `df.groupby("ticker")`: the distinct tickers of the
table, in ascending order (pandas sorts group keys). -/
def tickersOf (rows : List PricePoint) : List String :=
  List.insertionSort (fun a b => a ≤ b) ((rows.map PricePoint.ticker).dedup)

/-- One ticker's partition of the table, in original row order. -/
def groupOf (t : String) (rows : List PricePoint) : List PricePoint :=
  rows.filter (fun p => p.ticker == t)

/-- Embeds `make_table_df`: the ticker-indexed summary frame joining the
`min`/`max` rows with the `first`/`last` aggregates; no flat columns yet. -/
def make_table_df (rows : List PricePoint) : SummaryTable :=
  ⟨(tickersOf rows).map (fun t => (t, summarize (groupOf t rows))), []⟩

/-- Embeds reading column `name`, as in `df["r_last"]`: the first column of
that name, if present. -/
def getColumn (T : SummaryTable) (name : String) : Option (List ℚ) :=
  (T.extra.find? (fun c => c.fst == name)).map Prod.snd

/-- Embeds `df[name] = values`: overwrite the column in place when present,
append it otherwise. -/
def setColumn (T : SummaryTable) (name : String) (values : List ℚ) :
    SummaryTable :=
  if (T.extra.find? (fun c => c.fst == name)).isSome then
    ⟨T.rows, T.extra.map (fun c => if c.fst == name then (name, values) else c)⟩
  else
    ⟨T.rows, T.extra ++ [(name, values)]⟩

/-- Embeds `calculate_price_ratio`: assigns `r_last = price.last/price.first`
and `r_max = price.max/price.first`, aligned with the ticker index, and
returns the (now enriched) frame. No validation of `price_first` is
performed: the source's float division yields `inf` when `price_first` is 0
(the rational model yields the junk value 0) and a negative ratio when it is
negative, and no exception is raised either way. -/
def calculate_price_ratio (T : SummaryTable) : SummaryTable :=
  let r_last := T.rows.map (fun ts => ts.snd.price_last / ts.snd.price_first)
  let r_max := T.rows.map (fun ts => ts.snd.price_max / ts.snd.price_first)
  setColumn (setColumn T "r_last" r_last) "r_max" r_max

/-- Embeds `calculate_profit`: assigns `p_last = r_last*deposit - deposit`
and `p_max = r_max*deposit - deposit` read from the ratio columns, and
returns the frame. Reading a missing column raises a `KeyError`. -/
def calculate_profit (T : SummaryTable) (deposit : Int) :
    Except String SummaryTable :=
  match getColumn T "r_last", getColumn T "r_max" with
  | some rl, some rm =>
      .ok (setColumn
            (setColumn T "p_last" (rl.map (fun r => r * (deposit : ℚ) - (deposit : ℚ))))
            "p_max" (rm.map (fun r => r * (deposit : ℚ) - (deposit : ℚ))))
  | _, _ => .error "KeyError: r_last"

/-- The metric-calculator composition used by `main`: ratios then profit. -/
def metricEnrich (T : SummaryTable) (deposit : Int) :
    Except String SummaryTable :=
  calculate_profit (calculate_price_ratio T) deposit

/-- The pure tail of `main` after the fetch: table build, summary, ratios,
profit. -/
def tableMetrics (token_prices : List RawHistory) (deposit : Int) :
    Except String SummaryTable := do
  let df ← historical_prices_to_df token_prices
  metricEnrich (make_table_df df) deposit

/-- Embeds `main` up to the value handed to `print`/`show_chart`: any raised
exception propagates and terminates the run before the chart is produced, so
the chart exists exactly when the result is `.ok`. -/
def run_pipeline (fetch : String → Response) (ticker_list : List String)
    (deposit : Int) : Except String SummaryTable := do
  let token_prices ← get_all_token_prices fetch ticker_list
  tableMetrics token_prices deposit

/-! Helper lemmas about the extremal-row selectors and the date sort. -/

theorem argmaxRow_spec (p : PricePoint) (ps : List PricePoint) :
    argmaxRow p ps ∈ p :: ps ∧ ∀ q ∈ p :: ps, q.price ≤ (argmaxRow p ps).price := by
  induction ps generalizing p with
  | nil =>
      refine ⟨List.mem_singleton.mpr rfl, ?_⟩
      intro q hq
      rw [List.mem_singleton] at hq
      subst hq
      exact le_refl _
  | cons a as ih =>
      have hstep : argmaxRow p (a :: as)
          = argmaxRow (if p.price < a.price then a else p) as := rfl
      obtain ⟨hmem, hge⟩ := ih (if p.price < a.price then a else p)
      constructor
      · rw [hstep]
        rcases List.mem_cons.mp hmem with h | h
        · rw [h]
          by_cases hpa : p.price < a.price
          · simp [hpa]
          · simp [hpa]
        · exact List.mem_cons_of_mem _ (List.mem_cons_of_mem _ h)
      · intro q hq
        rw [hstep]
        rcases List.mem_cons.mp hq with rfl | hq'
        · by_cases hpa : q.price < a.price
          · have ha := hge a (by simp [hpa])
            exact le_trans (le_of_lt hpa) ha
          · exact hge q (by simp [hpa])
        · rcases List.mem_cons.mp hq' with rfl | hq''
          · by_cases hpa : p.price < q.price
            · exact hge q (by simp [hpa])
            · have h1 : q.price ≤ p.price := le_of_not_lt hpa
              have h2 := hge p (by simp [hpa])
              exact le_trans h1 h2
          · exact hge q (List.mem_cons_of_mem _ hq'')

theorem argminRow_spec (p : PricePoint) (ps : List PricePoint) :
    argminRow p ps ∈ p :: ps ∧ ∀ q ∈ p :: ps, (argminRow p ps).price ≤ q.price := by
  induction ps generalizing p with
  | nil =>
      refine ⟨List.mem_singleton.mpr rfl, ?_⟩
      intro q hq
      rw [List.mem_singleton] at hq
      subst hq
      exact le_refl _
  | cons a as ih =>
      have hstep : argminRow p (a :: as)
          = argminRow (if a.price < p.price then a else p) as := rfl
      obtain ⟨hmem, hle⟩ := ih (if a.price < p.price then a else p)
      constructor
      · rw [hstep]
        rcases List.mem_cons.mp hmem with h | h
        · rw [h]
          by_cases hpa : a.price < p.price
          · simp [hpa]
          · simp [hpa]
        · exact List.mem_cons_of_mem _ (List.mem_cons_of_mem _ h)
      · intro q hq
        rw [hstep]
        rcases List.mem_cons.mp hq with rfl | hq'
        · by_cases hpa : a.price < q.price
          · have ha := hle a (by simp [hpa])
            exact le_trans ha (le_of_lt hpa)
          · exact hle q (by simp [hpa])
        · rcases List.mem_cons.mp hq' with rfl | hq''
          · by_cases hpa : q.price < p.price
            · exact hle q (by simp [hpa])
            · have h1 : p.price ≤ q.price := le_of_not_lt hpa
              have h2 := hle p (by simp [hpa])
              exact le_trans h2 h1
          · exact hle q (List.mem_cons_of_mem _ hq'')

theorem sortedByDate_ne_nil (p : PricePoint) (ps : List PricePoint) :
    List.insertionSort dateLe (p :: ps) ≠ [] := by
  intro h
  have hlen := (List.perm_insertionSort dateLe (p :: ps)).length_eq
  rw [h] at hlen
  simp at hlen

theorem headD_of_ne_nil {α : Type} (l : List α) (d : α) (h : l ≠ []) :
    l.headD d = l.head h := by
  cases l with
  | nil => exact absurd rfl h
  | cons a as => rfl

theorem getLastD_of_ne_nil {α : Type} (l : List α) (d : α) (h : l ≠ []) :
    l.getLastD d = l.getLast h := by
  rw [List.getLastD_eq_getLast?, List.getLast?_eq_getLast l h]
  rfl

theorem sorted_head_le_getLast {l : List PricePoint}
    (hs : List.Sorted dateLe l) (hne : l ≠ []) :
    dateLe (l.head hne) (l.getLast hne) := by
  cases l with
  | nil => exact absurd rfl hne
  | cons a as =>
      cases as with
      | nil => exact le_refl a.date
      | cons b bs =>
          have hlast : (a :: b :: bs).getLast hne
              = (b :: bs).getLast (List.cons_ne_nil b bs) :=
            List.getLast_cons (List.cons_ne_nil b bs)
          have hmem : (b :: bs).getLast (List.cons_ne_nil b bs) ∈ b :: bs :=
            List.getLast_mem _
          have hrel := List.rel_of_sorted_cons hs _ hmem
          rw [List.head_cons, hlast]
          exact hrel

theorem summarize_fields (p : PricePoint) (ps : List PricePoint) :
    summarize (p :: ps) =
      ⟨((List.insertionSort dateLe (p :: ps)).headD p).date,
       ((List.insertionSort dateLe (p :: ps)).getLastD p).date,
       (argmaxRow p ps).date, (argminRow p ps).date,
       ((List.insertionSort dateLe (p :: ps)).headD p).price,
       ((List.insertionSort dateLe (p :: ps)).getLastD p).price,
       (argmaxRow p ps).price, (argminRow p ps).price⟩ :=
  rfl

theorem summarize_price_bounds (p : PricePoint) (ps : List PricePoint) :
    ∀ q ∈ p :: ps, (summarize (p :: ps)).price_min ≤ q.price
      ∧ q.price ≤ (summarize (p :: ps)).price_max := by
  intro q hq
  rw [summarize_fields]
  exact ⟨(argminRow_spec p ps).2 q hq, (argmaxRow_spec p ps).2 q hq⟩

theorem summarize_first_mem (p : PricePoint) (ps : List PricePoint) :
    ∃ f ∈ p :: ps, f.price = (summarize (p :: ps)).price_first
      ∧ f.date = (summarize (p :: ps)).date_first := by
  have hne := sortedByDate_ne_nil p ps
  refine ⟨(List.insertionSort dateLe (p :: ps)).head hne, ?_, ?_, ?_⟩
  · exact (List.mem_insertionSort dateLe).mp (List.head_mem hne)
  · rw [summarize_fields, headD_of_ne_nil _ _ hne]
  · rw [summarize_fields, headD_of_ne_nil _ _ hne]

theorem summarize_last_mem (p : PricePoint) (ps : List PricePoint) :
    ∃ f ∈ p :: ps, f.price = (summarize (p :: ps)).price_last
      ∧ f.date = (summarize (p :: ps)).date_last := by
  have hne := sortedByDate_ne_nil p ps
  refine ⟨(List.insertionSort dateLe (p :: ps)).getLast hne, ?_, ?_, ?_⟩
  · exact (List.mem_insertionSort dateLe).mp (List.getLast_mem hne)
  · rw [summarize_fields, getLastD_of_ne_nil _ _ hne]
  · rw [summarize_fields, getLastD_of_ne_nil _ _ hne]

theorem summarize_date_order (p : PricePoint) (ps : List PricePoint) :
    (summarize (p :: ps)).date_first ≤ (summarize (p :: ps)).date_last := by
  have hne := sortedByDate_ne_nil p ps
  have hs := List.sorted_insertionSort dateLe (p :: ps)
  have h := sorted_head_le_getLast hs hne
  rw [summarize_fields, headD_of_ne_nil _ p hne, getLastD_of_ne_nil _ p hne]
  exact h

theorem mem_groupOf {q : PricePoint} {t : String} {rows : List PricePoint} :
    q ∈ groupOf t rows ↔ q ∈ rows ∧ q.ticker = t := by
  simp [groupOf, List.mem_filter]

/-! Helper lemmas about column assignment on `SummaryTable`. First, `find?`
restated with the predicate explicit, so rewrites instantiate it as meant. -/

theorem find?_cons_pos {α : Type} (p : α → Bool) (a : α) (l : List α)
    (h : p a = true) : (a :: l).find? p = some a :=
  List.find?_cons_of_pos l h

theorem find?_cons_neg {α : Type} (p : α → Bool) (a : α) (l : List α)
    (h : ¬p a = true) : (a :: l).find? p = l.find? p :=
  List.find?_cons_of_neg l h

theorem rows_setColumn (T : SummaryTable) (n : String) (v : List ℚ) :
    (setColumn T n v).rows = T.rows := by
  unfold setColumn
  split <;> rfl

theorem find?_overwrite (l : List (String × List ℚ)) (n : String) (v : List ℚ)
    (h : (l.find? (fun c => c.fst == n)).isSome) :
    (l.map (fun c => if c.fst == n then (n, v) else c)).find?
      (fun c => c.fst == n) = some (n, v) := by
  induction l with
  | nil => simp at h
  | cons a as ih =>
      by_cases ha : (a.fst == n) = true
      · have hhead : (if a.fst == n then (n, v) else a) = (n, v) := if_pos ha
        rw [List.map_cons, hhead]
        exact find?_cons_pos (fun c => c.fst == n) (n, v) _ (by simp)
      · have hhead : (if a.fst == n then (n, v) else a) = a := if_neg ha
        rw [List.map_cons, hhead, find?_cons_neg (fun c => c.fst == n) a _ ha]
        rw [find?_cons_neg (fun c => c.fst == n) a as ha] at h
        exact ih h

theorem find?_overwrite_ne (l : List (String × List ℚ)) (n m : String)
    (v : List ℚ) (hnm : (n == m) = false) :
    (l.map (fun c => if c.fst == n then (n, v) else c)).find?
      (fun c => c.fst == m) = l.find? (fun c => c.fst == m) := by
  induction l with
  | nil => rfl
  | cons a as ih =>
      by_cases ha : (a.fst == n) = true
      · have haeq : a.fst = n := eq_of_beq ha
        have ham : ¬(a.fst == m) = true := by
          rw [haeq, hnm]
          exact Bool.false_ne_true
        have hhead : (if a.fst == n then (n, v) else a) = (n, v) := if_pos ha
        rw [List.map_cons, hhead,
          find?_cons_neg (fun c => c.fst == m) (n, v) _ (by simp [hnm]),
          find?_cons_neg (fun c => c.fst == m) a as ham, ih]
      · have hhead : (if a.fst == n then (n, v) else a) = a := if_neg ha
        by_cases ham : (a.fst == m) = true
        · rw [List.map_cons, hhead,
            find?_cons_pos (fun c => c.fst == m) a _ ham,
            find?_cons_pos (fun c => c.fst == m) a as ham]
        · rw [List.map_cons, hhead,
            find?_cons_neg (fun c => c.fst == m) a _ ham,
            find?_cons_neg (fun c => c.fst == m) a as ham, ih]

theorem find?_append_none {α : Type} (p : α → Bool) (l1 l2 : List α)
    (h : l1.find? p = none) : (l1 ++ l2).find? p = l2.find? p := by
  induction l1 with
  | nil => rfl
  | cons a as ih =>
      by_cases ha : p a = true
      · rw [find?_cons_pos p a as ha] at h
        cases h
      · rw [find?_cons_neg p a as ha] at h
        rw [List.cons_append, find?_cons_neg p a _ ha]
        exact ih h

theorem find?_append_some {α : Type} (p : α → Bool) (l1 l2 : List α) (c : α)
    (h : l1.find? p = some c) : (l1 ++ l2).find? p = some c := by
  induction l1 with
  | nil => cases h
  | cons a as ih =>
      by_cases ha : p a = true
      · rw [find?_cons_pos p a as ha] at h
        rw [List.cons_append, find?_cons_pos p a _ ha]
        exact h
      · rw [find?_cons_neg p a as ha] at h
        rw [List.cons_append, find?_cons_neg p a _ ha]
        exact ih h

theorem getColumn_setColumn_self (T : SummaryTable) (n : String) (v : List ℚ) :
    getColumn (setColumn T n v) n = some v := by
  unfold setColumn getColumn
  by_cases h : (T.extra.find? (fun c => c.fst == n)).isSome
  · rw [if_pos h]
    simp only
    rw [find?_overwrite T.extra n v h]
    rfl
  · rw [if_neg h]
    simp only
    rw [find?_append_none _ _ _ (Option.not_isSome_iff_eq_none.mp h),
      find?_cons_pos (fun c => c.fst == n) (n, v) [] (by simp)]
    rfl

theorem getColumn_setColumn_ne (T : SummaryTable) (n m : String) (v : List ℚ)
    (hmn : m ≠ n) :
    getColumn (setColumn T n v) m = getColumn T m := by
  have hnm : (n == m) = false := beq_eq_false_iff_ne.mpr (Ne.symm hmn)
  unfold setColumn getColumn
  by_cases h : (T.extra.find? (fun c => c.fst == n)).isSome
  · rw [if_pos h]
    simp only
    rw [find?_overwrite_ne T.extra n m v hnm]
  · rw [if_neg h]
    simp only
    cases hf : T.extra.find? (fun c => c.fst == m) with
    | none =>
        rw [find?_append_none _ _ _ hf,
          find?_cons_neg (fun c => c.fst == m) (n, v) [] (by simp [hnm]),
          List.find?_nil]
    | some c =>
        rw [find?_append_some _ _ _ _ hf]

theorem names_overwrite (l : List (String × List ℚ)) (n : String) (v : List ℚ) :
    (l.map (fun c => if c.fst == n then (n, v) else c)).map Prod.fst
      = l.map Prod.fst := by
  induction l with
  | nil => rfl
  | cons a as ih =>
      by_cases ha : (a.fst == n) = true
      · have haeq : a.fst = n := eq_of_beq ha
        rw [List.map_cons, if_pos ha, List.map_cons, List.map_cons, ih]
        simp [haeq]
      · rw [List.map_cons, if_neg ha, List.map_cons, List.map_cons, ih]

theorem names_setColumn_fresh (T : SummaryTable) (n : String) (v : List ℚ)
    (h : n ∉ T.extra.map Prod.fst) :
    (setColumn T n v).extra.map Prod.fst = T.extra.map Prod.fst ++ [n] := by
  have hfind : T.extra.find? (fun c => c.fst == n) = none := by
    rw [List.find?_eq_none]
    intro x hx hbx
    exact h (List.mem_map.mpr ⟨x, hx, eq_of_beq hbx⟩)
  unfold setColumn
  rw [if_neg (by simp [hfind])]
  simp

theorem names_setColumn_present (T : SummaryTable) (n : String) (v : List ℚ)
    (h : (T.extra.find? (fun c => c.fst == n)).isSome) :
    (setColumn T n v).extra.map Prod.fst = T.extra.map Prod.fst := by
  unfold setColumn
  rw [if_pos h]
  exact names_overwrite T.extra n v

theorem find?_eq_of_getColumn (T : SummaryTable) (n : String) (v : List ℚ)
    (h : getColumn T n = some v) :
    T.extra.find? (fun c => c.fst == n) = some (n, v) := by
  unfold getColumn at h
  cases hf : T.extra.find? (fun c => c.fst == n) with
  | none => rw [hf] at h; cases h
  | some c =>
      rw [hf] at h
      have hsnd : c.snd = v := by simpa using h
      have hfst : c.fst = n :=
        eq_of_beq (@List.find?_some _ (fun c => c.fst == n) c T.extra hf)
      cases c
      simp_all

theorem map_overwrite_id (l : List (String × List ℚ)) (n : String) (v : List ℚ)
    (h : ∀ c ∈ l, (c.fst == n) = false) :
    l.map (fun c => if c.fst == n then (n, v) else c) = l := by
  induction l with
  | nil => rfl
  | cons a as ih =>
      have ha := h a (List.mem_cons_self a as)
      rw [List.map_cons, if_neg (by simp [ha]),
        ih (fun c hc => h c (List.mem_cons_of_mem _ hc))]

theorem overwrite_eq_self (l : List (String × List ℚ)) (n : String)
    (v : List ℚ) (hnodup : (l.map Prod.fst).Nodup)
    (hfind : l.find? (fun c => c.fst == n) = some (n, v)) :
    l.map (fun c => if c.fst == n then (n, v) else c) = l := by
  induction l with
  | nil => cases hfind
  | cons a as ih =>
      by_cases ha : (a.fst == n) = true
      · have haeq : a.fst = n := eq_of_beq ha
        rw [find?_cons_pos (fun c => c.fst == n) a as ha] at hfind
        have haval : a = (n, v) := by
          cases hfind
          rfl
        rw [List.map_cons, if_pos ha]
        have hrest : ∀ c ∈ as, (c.fst == n) = false := by
          intro c hc
          have hna : a.fst ∉ as.map Prod.fst :=
            (List.nodup_cons.mp (by simpa using hnodup)).1
          rw [beq_eq_false_iff_ne]
          intro hcn
          exact hna (List.mem_map.mpr ⟨c, hc, by rw [hcn, haeq]⟩)
        rw [map_overwrite_id as n v hrest, haval]
      · rw [find?_cons_neg (fun c => c.fst == n) a as ha] at hfind
        rw [List.map_cons, if_neg ha,
          ih (List.Nodup.of_cons (by simpa using hnodup)) hfind]

theorem setColumn_eq_self (T : SummaryTable) (n : String) (v : List ℚ)
    (hnodup : (T.extra.map Prod.fst).Nodup)
    (hget : getColumn T n = some v) :
    setColumn T n v = T := by
  have hfind := find?_eq_of_getColumn T n v hget
  unfold setColumn
  rw [if_pos (by simp [hfind])]
  cases T with
  | mk rows extra =>
      simp only [SummaryTable.mk.injEq, true_and]
      simp only at hfind hnodup
      exact overwrite_eq_self extra n v hnodup hfind

/-! Helper lemmas about the concurrent fetch fan-out/fan-in. -/

theorem gather_results_cons_ok (b : RawHistory)
    (ts : List (Except String RawHistory)) :
    gather_results (.ok b :: ts) = (gather_results ts).map (fun xs => b :: xs) := by
  cases hg : gather_results ts with
  | error e =>
      show Except.bind (gather_results ts) _ = _
      rw [hg]
      rfl
  | ok xs =>
      show Except.bind (gather_results ts) _ = _
      rw [hg]
      rfl

theorem gather_results_cons_error (e : String)
    (ts : List (Except String RawHistory)) :
    gather_results (.error e :: ts) = .error e :=
  rfl

theorem get_token_price_history_ok (t : String) (resp : Response)
    (h : resp.status_code = 200) :
    get_token_price_history t resp = .ok resp.body := by
  unfold get_token_price_history
  rw [if_neg (by simp [h])]

theorem get_token_price_history_error (t : String) (resp : Response)
    (h : resp.status_code ≠ 200) :
    get_token_price_history t resp
      = .error (fetchErrorMsg t resp.status_code) := by
  unfold get_token_price_history
  rw [if_pos h]

theorem get_all_ok (fetch : String → Response) (l : List String)
    (h : ∀ t ∈ l, (fetch t).status_code = 200) :
    get_all_token_prices fetch l = .ok (l.map (fun t => (fetch t).body)) := by
  induction l with
  | nil => rfl
  | cons a as ih =>
      have ha := h a (List.mem_cons_self a as)
      have ihas := ih (fun t ht => h t (List.mem_cons_of_mem a ht))
      unfold get_all_token_prices at ihas ⊢
      show gather_results
          (get_token_price_history a (fetch a) :: fetch_tasks fetch as) = _
      rw [get_token_price_history_ok a (fetch a) ha, gather_results_cons_ok,
        ihas]
      rfl

theorem get_all_error (fetch : String → Response) (l : List String)
    (hex : ∃ t ∈ l, (fetch t).status_code ≠ 200) :
    ∃ u ∈ l, (fetch u).status_code ≠ 200
      ∧ get_all_token_prices fetch l
          = .error (fetchErrorMsg u (fetch u).status_code) := by
  induction l with
  | nil => simp at hex
  | cons a as ih =>
      by_cases ha : (fetch a).status_code = 200
      · have hex' : ∃ t ∈ as, (fetch t).status_code ≠ 200 := by
          rcases hex with ⟨t, ht, hts⟩
          rcases List.mem_cons.mp ht with rfl | ht'
          · exact absurd ha hts
          · exact ⟨t, ht', hts⟩
        rcases ih hex' with ⟨u, hu, hus, heq⟩
        refine ⟨u, List.mem_cons_of_mem a hu, hus, ?_⟩
        unfold get_all_token_prices at heq ⊢
        show gather_results
            (get_token_price_history a (fetch a) :: fetch_tasks fetch as) = _
        rw [get_token_price_history_ok a (fetch a) ha, gather_results_cons_ok,
          heq]
        rfl
      · refine ⟨a, List.mem_cons_self a as, ha, ?_⟩
        unfold get_all_token_prices
        show gather_results
            (get_token_price_history a (fetch a) :: fetch_tasks fetch as) = _
        rw [get_token_price_history_error a (fetch a) ha,
          gather_results_cons_error]

theorem run_pipeline_error (fetch : String → Response) (l : List String)
    (d : Int) (e : String)
    (h : get_all_token_prices fetch l = .error e) :
    run_pipeline fetch l d = .error e := by
  unfold run_pipeline
  rw [h]
  rfl

/-! Helper lemmas about the metric-calculator composition. -/

theorem calculate_profit_of_getColumns (T : SummaryTable) (d : Int)
    (rl rm : List ℚ)
    (hrl : getColumn T "r_last" = some rl)
    (hrm : getColumn T "r_max" = some rm) :
    calculate_profit T d
      = .ok (setColumn
          (setColumn T "p_last" (rl.map (fun r => r * (d : ℚ) - (d : ℚ))))
          "p_max" (rm.map (fun r => r * (d : ℚ) - (d : ℚ)))) := by
  unfold calculate_profit
  rw [hrl, hrm]

theorem ratio_getColumn_r_last (T : SummaryTable) :
    getColumn (calculate_price_ratio T) "r_last"
      = some (T.rows.map (fun ts => ts.snd.price_last / ts.snd.price_first)) := by
  unfold calculate_price_ratio
  rw [getColumn_setColumn_ne _ "r_max" "r_last" _ (by decide),
    getColumn_setColumn_self]

theorem ratio_getColumn_r_max (T : SummaryTable) :
    getColumn (calculate_price_ratio T) "r_max"
      = some (T.rows.map (fun ts => ts.snd.price_max / ts.snd.price_first)) := by
  unfold calculate_price_ratio
  rw [getColumn_setColumn_self]

theorem metricEnrich_eq_self (U : SummaryTable) (d : Int)
    (hnodup : (U.extra.map Prod.fst).Nodup)
    (hrl : getColumn U "r_last"
      = some (U.rows.map (fun ts => ts.snd.price_last / ts.snd.price_first)))
    (hrm : getColumn U "r_max"
      = some (U.rows.map (fun ts => ts.snd.price_max / ts.snd.price_first)))
    (hpl : getColumn U "p_last"
      = some ((U.rows.map (fun ts => ts.snd.price_last / ts.snd.price_first)).map
          (fun r => r * (d : ℚ) - (d : ℚ))))
    (hpm : getColumn U "p_max"
      = some ((U.rows.map (fun ts => ts.snd.price_max / ts.snd.price_first)).map
          (fun r => r * (d : ℚ) - (d : ℚ)))) :
    metricEnrich U d = .ok U := by
  have hr : calculate_price_ratio U = U := by
    show setColumn
        (setColumn U "r_last"
          (U.rows.map (fun ts => ts.snd.price_last / ts.snd.price_first)))
        "r_max" (U.rows.map (fun ts => ts.snd.price_max / ts.snd.price_first))
        = U
    rw [setColumn_eq_self U _ _ hnodup hrl, setColumn_eq_self U _ _ hnodup hrm]
  unfold metricEnrich
  rw [hr, calculate_profit_of_getColumns U d _ _ hrl hrm,
    setColumn_eq_self U _ _ hnodup hpl, setColumn_eq_self U _ _ hnodup hpm]

theorem metricEnrich_explicit (rows : List (String × TickerSummary)) (d : Int) :
    metricEnrich ⟨rows, []⟩ d =
      .ok ⟨rows,
        [("r_last", rows.map (fun ts => ts.snd.price_last / ts.snd.price_first)),
         ("r_max", rows.map (fun ts => ts.snd.price_max / ts.snd.price_first)),
         ("p_last",
          (rows.map (fun ts => ts.snd.price_last / ts.snd.price_first)).map
            (fun r => r * (d : ℚ) - (d : ℚ))),
         ("p_max",
          (rows.map (fun ts => ts.snd.price_max / ts.snd.price_first)).map
            (fun r => r * (d : ℚ) - (d : ℚ)))]⟩ :=
  rfl

theorem metricEnrich_idem (rows : List (String × TickerSummary)) (d : Int)
    (U : SummaryTable) (h : metricEnrich ⟨rows, []⟩ d = .ok U) :
    metricEnrich U d = .ok U := by
  rw [metricEnrich_explicit] at h
  injection h with h
  subst h
  refine metricEnrich_eq_self _ d ?_ rfl rfl rfl rfl
  show (["r_last", "r_max", "p_last", "p_max"] : List String).Nodup
  decide

/-! The claims. -/

/-- C1: for every summary table and every deposit, the metric calculator
computes `r_last = price_last / price_first` and `r_max = price_max /
price_first` per ticker row, then `p_last = r_last * deposit - deposit` and
`p_max = r_max * deposit - deposit`. -/
theorem C1_ratio_profit_formulas (T : SummaryTable) (deposit : Int) :
    ∃ U, metricEnrich T deposit = .ok U
      ∧ getColumn U "r_last"
          = some (T.rows.map (fun ts => ts.snd.price_last / ts.snd.price_first))
      ∧ getColumn U "r_max"
          = some (T.rows.map (fun ts => ts.snd.price_max / ts.snd.price_first))
      ∧ getColumn U "p_last"
          = some (T.rows.map (fun ts =>
              ts.snd.price_last / ts.snd.price_first * (deposit : ℚ)
                - (deposit : ℚ)))
      ∧ getColumn U "p_max"
          = some (T.rows.map (fun ts =>
              ts.snd.price_max / ts.snd.price_first * (deposit : ℚ)
                - (deposit : ℚ))) := by
  refine ⟨_, calculate_profit_of_getColumns (calculate_price_ratio T) deposit _ _
    (ratio_getColumn_r_last T) (ratio_getColumn_r_max T), ?_, ?_, ?_, ?_⟩
  · rw [getColumn_setColumn_ne _ "p_max" "r_last" _ (by decide),
      getColumn_setColumn_ne _ "p_last" "r_last" _ (by decide),
      ratio_getColumn_r_last]
  · rw [getColumn_setColumn_ne _ "p_max" "r_max" _ (by decide),
      getColumn_setColumn_ne _ "p_last" "r_max" _ (by decide),
      ratio_getColumn_r_max]
  · rw [getColumn_setColumn_ne _ "p_max" "p_last" _ (by decide),
      getColumn_setColumn_self, List.map_map]
    rfl
  · rw [getColumn_setColumn_self, List.map_map]
    rfl

/-- C2: a non-200 response for a ticker in the list makes the per-ticker
fetch raise an error naming that ticker and status code, and makes the whole
batch — and with it the whole pipeline, so no chart — fail with such an
error for a failing ticker. -/
theorem C2_non200_aborts_batch (fetch : String → Response)
    (ticker_list : List String) (t : String) (deposit : Int)
    (hmem : t ∈ ticker_list) (hst : (fetch t).status_code ≠ 200) :
    get_token_price_history t (fetch t)
        = .error (fetchErrorMsg t (fetch t).status_code)
    ∧ ∃ u ∈ ticker_list, (fetch u).status_code ≠ 200
        ∧ get_all_token_prices fetch ticker_list
            = .error (fetchErrorMsg u (fetch u).status_code)
        ∧ run_pipeline fetch ticker_list deposit
            = .error (fetchErrorMsg u (fetch u).status_code) := by
  constructor
  · exact get_token_price_history_error t (fetch t) hst
  · rcases get_all_error fetch ticker_list ⟨t, hmem, hst⟩ with ⟨u, hu, hus, heq⟩
    exact ⟨u, hu, hus, heq,
      run_pipeline_error fetch ticker_list deposit _ heq⟩

/-- A batch of two tickers where exactly "BAD" answers 404. -/
def mixedStatusFetch : String → Response := fun t =>
  if t = "BAD" then ⟨404, ⟨[]⟩⟩ else ⟨200, ⟨[⟨20210101, 5, "GOOD"⟩]⟩⟩

/-- C2 at a concrete batch: the 404 ticker's fetch raises the naming error
and the batch and pipeline abort. -/
theorem C2_non200_aborts_batch_witness :
    ("BAD" ∈ ["GOOD", "BAD"] ∧ (mixedStatusFetch "BAD").status_code ≠ 200)
    ∧ (get_token_price_history "BAD" (mixedStatusFetch "BAD")
        = .error (fetchErrorMsg "BAD" (mixedStatusFetch "BAD").status_code)
      ∧ ∃ u ∈ ["GOOD", "BAD"], (mixedStatusFetch u).status_code ≠ 200
          ∧ get_all_token_prices mixedStatusFetch ["GOOD", "BAD"]
              = .error (fetchErrorMsg u (mixedStatusFetch u).status_code)
          ∧ run_pipeline mixedStatusFetch ["GOOD", "BAD"] 1000
              = .error (fetchErrorMsg u (mixedStatusFetch u).status_code)) :=
  ⟨⟨by decide, by decide⟩,
    C2_non200_aborts_batch mixedStatusFetch ["GOOD", "BAD"] "BAD" 1000
      (by decide) (by decide)⟩

/-- C3: the batch fetch plans exactly one request per input ticker, and when
all succeed it returns one raw history per ticker in input-list order; the
model indexes every result by its input position, so response-arrival order
cannot influence it. -/
theorem C3_requests_match_input_order (fetch : String → Response)
    (ticker_list : List String) :
    (fetch_tasks fetch ticker_list).length = ticker_list.length
    ∧ ((∀ t ∈ ticker_list, (fetch t).status_code = 200) →
        get_all_token_prices fetch ticker_list
          = .ok (ticker_list.map (fun t => (fetch t).body))) :=
  ⟨List.length_map ticker_list _, fun h => get_all_ok fetch ticker_list h⟩

/-- A fetch in which every ticker answers 200 with one sample naming it. -/
def allOkFetch : String → Response := fun t =>
  ⟨200, ⟨[⟨20210101, 7, t⟩]⟩⟩

/-- C3 at a concrete batch of three tickers: three tasks, results in input
order. -/
theorem C3_requests_match_input_order_witness :
    (fetch_tasks allOkFetch ["UNI", "SUSHI", "BAL"]).length = 3
    ∧ get_all_token_prices allOkFetch ["UNI", "SUSHI", "BAL"]
        = .ok [⟨[⟨20210101, 7, "UNI"⟩]⟩, ⟨[⟨20210101, 7, "SUSHI"⟩]⟩,
               ⟨[⟨20210101, 7, "BAL"⟩]⟩] :=
  ⟨(C3_requests_match_input_order allOkFetch ["UNI", "SUSHI", "BAL"]).1,
    ((C3_requests_match_input_order allOkFetch ["UNI", "SUSHI", "BAL"]).2
      (by decide)).trans (by rfl)⟩

/-- C4: every ticker row of the summary table has `date_first ≤ date_last`,
`price_min` below and `price_max` above every price sample of that ticker's
partition, and in particular `price_first` and `price_last` lie between
`price_min` and `price_max`. -/
theorem C4_summary_invariants (rows : List PricePoint) (t : String)
    (s : TickerSummary) (hmem : (t, s) ∈ (make_table_df rows).rows) :
    s.date_first ≤ s.date_last
    ∧ (∀ p ∈ rows, p.ticker = t → s.price_min ≤ p.price ∧ p.price ≤ s.price_max)
    ∧ s.price_min ≤ s.price_first ∧ s.price_first ≤ s.price_max
    ∧ s.price_min ≤ s.price_last ∧ s.price_last ≤ s.price_max := by
  rcases List.mem_map.mp hmem with ⟨t', ht', heq⟩
  have htt : t' = t := congrArg Prod.fst heq
  subst htt
  have hs : summarize (groupOf t' rows) = s := congrArg Prod.snd heq
  subst hs
  have ht2 := List.mem_dedup.mp ((List.mem_insertionSort _).mp ht')
  rcases List.mem_map.mp ht2 with ⟨p0, hp0, hp0t⟩
  have hp0g : p0 ∈ groupOf t' rows := mem_groupOf.mpr ⟨hp0, hp0t⟩
  cases hg : groupOf t' rows with
  | nil =>
      rw [hg] at hp0g
      cases hp0g
  | cons p ps =>
      have hbounds := summarize_price_bounds p ps
      rcases summarize_first_mem p ps with ⟨f, hf, hfp, _⟩
      rcases summarize_last_mem p ps with ⟨l, hl, hlp, _⟩
      refine ⟨summarize_date_order p ps, ?_, ?_, ?_, ?_, ?_⟩
      · intro q hq hqt
        have hqg : q ∈ groupOf t' rows := mem_groupOf.mpr ⟨hq, hqt⟩
        rw [hg] at hqg
        exact hbounds q hqg
      · rw [← hfp]
        exact (hbounds f hf).1
      · rw [← hfp]
        exact (hbounds f hf).2
      · rw [← hlp]
        exact (hbounds l hl).1
      · rw [← hlp]
        exact (hbounds l hl).2

/-- The flat table of the single-ticker scenario of §8. -/
def rowsAAA : List PricePoint :=
  [⟨20210101, 100, "AAA"⟩, ⟨20210115, 150, "AAA"⟩, ⟨20210201, 90, "AAA"⟩]

/-- C4 at the concrete single-ticker table. -/
theorem C4_summary_invariants_witness :
    ("AAA", (⟨20210101, 20210201, 20210115, 20210201, 100, 90, 150, 90⟩ :
        TickerSummary)) ∈ (make_table_df rowsAAA).rows
    ∧ ((20210101 : Int) ≤ 20210201
      ∧ (∀ p ∈ rowsAAA, p.ticker = "AAA" →
          (90 : ℚ) ≤ p.price ∧ p.price ≤ 150)
      ∧ (90 : ℚ) ≤ 100 ∧ (100 : ℚ) ≤ 150 ∧ (90 : ℚ) ≤ 90 ∧ (90 : ℚ) ≤ 150) :=
  ⟨by decide,
    C4_summary_invariants rowsAAA "AAA"
      ⟨20210101, 20210201, 20210115, 20210201, 100, 90, 150, 90⟩ (by decide)⟩

/-- C5: flattening histories in which exactly one history carries ticker `t`
with `K` samples yields exactly `K` rows with ticker `t`, each projecting
the sample's nested ticker symbol, price and date. -/
theorem C5_flatten_k_rows (a b : List RawHistory) (h : RawHistory) (t : String)
    (hall : ∀ r ∈ h.prices, r.contract_ticker_symbol = t)
    (hother : ∀ h' ∈ a ++ b, ∀ r ∈ h'.prices, r.contract_ticker_symbol ≠ t)
    (hne : flattenRows (a ++ h :: b) ≠ []) :
    ∃ rows, historical_prices_to_df (a ++ h :: b) = .ok rows
      ∧ rows.filter (fun p => p.ticker == t)
          = h.prices.map (fun r => ⟨r.date, r.price, r.contract_ticker_symbol⟩)
      ∧ (rows.filter (fun p => p.ticker == t)).length = h.prices.length := by
  have hsplit : flattenRows (a ++ h :: b)
      = flattenRows a
        ++ (h.prices.map (fun r => ⟨r.date, r.price, r.contract_ticker_symbol⟩)
            ++ flattenRows b) := by
    unfold flattenRows
    rw [List.flatMap_append, List.flatMap_cons]
  have hfa : (flattenRows a).filter (fun p => p.ticker == t) = [] := by
    rw [List.filter_eq_nil_iff]
    intro p hp
    rcases List.mem_flatMap.mp hp with ⟨h', hh', hp'⟩
    rcases List.mem_map.mp hp' with ⟨r, hr, rfl⟩
    simp only [beq_iff_eq]
    exact hother h' (List.mem_append.mpr (Or.inl hh')) r hr
  have hfb : (flattenRows b).filter (fun p => p.ticker == t) = [] := by
    rw [List.filter_eq_nil_iff]
    intro p hp
    rcases List.mem_flatMap.mp hp with ⟨h', hh', hp'⟩
    rcases List.mem_map.mp hp' with ⟨r, hr, rfl⟩
    simp only [beq_iff_eq]
    exact hother h' (List.mem_append.mpr (Or.inr hh')) r hr
  have hfh : (h.prices.map
        (fun r => (⟨r.date, r.price, r.contract_ticker_symbol⟩ : PricePoint))).filter
        (fun p => p.ticker == t)
      = h.prices.map (fun r => ⟨r.date, r.price, r.contract_ticker_symbol⟩) := by
    rw [List.filter_eq_self]
    intro p hp
    rcases List.mem_map.mp hp with ⟨r, hr, rfl⟩
    simp only [beq_iff_eq]
    exact hall r hr
  have hfilter : (flattenRows (a ++ h :: b)).filter (fun p => p.ticker == t)
      = h.prices.map (fun r => ⟨r.date, r.price, r.contract_ticker_symbol⟩) := by
    rw [hsplit, List.filter_append, List.filter_append, hfa, hfb, hfh]
    simp
  refine ⟨flattenRows (a ++ h :: b), ?_, hfilter, ?_⟩
  · unfold historical_prices_to_df
    rw [if_neg hne]
  · rw [hfilter, List.length_map]

/-- A two-sample history for ticker "AAA". -/
def historyAAA : RawHistory :=
  ⟨[⟨20210101, 100, "AAA"⟩, ⟨20210115, 150, "AAA"⟩]⟩

/-- A one-sample history for ticker "XXX". -/
def historyXXX : RawHistory :=
  ⟨[⟨20210101, 5, "XXX"⟩]⟩

/-- C5 at a concrete pair of histories: the "AAA" history's two samples
yield exactly its two rows. -/
theorem C5_flatten_k_rows_witness :
    ((∀ r ∈ historyAAA.prices, r.contract_ticker_symbol = "AAA")
      ∧ (∀ h' ∈ ([] : List RawHistory) ++ [historyXXX],
          ∀ r ∈ h'.prices, r.contract_ticker_symbol ≠ "AAA")
      ∧ flattenRows ([] ++ historyAAA :: [historyXXX]) ≠ [])
    ∧ ∃ rows, historical_prices_to_df ([] ++ historyAAA :: [historyXXX])
          = .ok rows
        ∧ rows.filter (fun p => p.ticker == "AAA")
            = historyAAA.prices.map
                (fun r => ⟨r.date, r.price, r.contract_ticker_symbol⟩)
        ∧ (rows.filter (fun p => p.ticker == "AAA")).length
            = historyAAA.prices.length :=
  ⟨⟨by decide, by decide, by decide⟩,
    C5_flatten_k_rows [] [historyXXX] historyAAA "AAA"
      (by decide) (by decide) (by decide)⟩

/-- A batch of two tickers, both answering 200, where "AAA"'s window holds
zero price samples and "BBB"'s holds one. -/
def emptyPricesFetch : String → Response := fun t =>
  if t = "AAA" then ⟨200, ⟨[]⟩⟩
  else ⟨200, ⟨[⟨20210101, 5, "BBB"⟩]⟩⟩

/-- C6, evaluated at the failing input: with one empty-window ticker among
others, the pipeline SUCCEEDS and the resulting table simply has no row for
"AAA" — the ticker is silently skipped, no EmptyDataset-class error is
raised, and the chart for the remaining tickers is produced. -/
theorem C6_empty_ticker_silently_skipped :
    (run_pipeline emptyPricesFetch ["AAA", "BBB"] 1000).toOption.map
        (fun U => U.rows.map Prod.fst) = some ["BBB"] := by
  decide

/-- The single-ticker scenario of §8: three samples for "AAA". -/
def rawC7 : List RawHistory :=
  [⟨[⟨20210101, 100, "AAA"⟩, ⟨20210115, 150, "AAA"⟩, ⟨20210201, 90, "AAA"⟩]⟩]

/-- C7: on the "AAA" series (100 on 2021-01-01, 150 on 2021-01-15, 90 on
2021-02-01) with deposit 1000, the pipeline yields price_first = 100,
price_last = 90, price_max = 150, r_last = 0.9, r_max = 1.5,
p_last = -100 and p_max = 500. -/
theorem C7_single_ticker_scenario :
    tableMetrics rawC7 1000 = .ok
      ⟨[("AAA", ⟨20210101, 20210201, 20210115, 20210201, 100, 90, 150, 90⟩)],
       [("r_last", [9/10]), ("r_max", [3/2]),
        ("p_last", [-100]), ("p_max", [500])]⟩ := by
  with_unfolding_all rfl

/-- A summary table whose only ticker has first price 0. -/
def zeroFirstTable : SummaryTable :=
  ⟨[("AAA", ⟨20210101, 20210201, 20210115, 20210101, 0, 50, 80, 0⟩)], []⟩

/-- A summary table whose only ticker has first price -5. -/
def negativeFirstTable : SummaryTable :=
  ⟨[("BBB", ⟨20210101, 20210201, 20210115, 20210101, -5, 50, 80, -5⟩)], []⟩

/-- C8, evaluated at the failing inputs: with first price 0 or negative the
ratio step still returns an enriched table and the whole metric step
succeeds — no InvalidMetricInput-class error is raised (with a zero first
price the source's float division yields `inf`; with a negative one the
ratio is just negative, here 50 / -5 = -10). -/
theorem C8_invalid_first_price_not_rejected :
    (getColumn (calculate_price_ratio zeroFirstTable) "r_last").isSome = true
    ∧ (metricEnrich zeroFirstTable 1000).isOk = true
    ∧ getColumn (calculate_price_ratio negativeFirstTable) "r_last"
        = some [-10]
    ∧ (metricEnrich negativeFirstTable 1000).isOk = true := by
  with_unfolding_all decide

/-- C9: the table build plus metric calculation is a pure function of the
raw fetch results — a second run on the same input returns the same table,
and even re-running the metric enrichment on the already-enriched table
reassigns every derived column with identical values, leaving it unchanged. -/
theorem C9_table_metrics_deterministic (token_prices : List RawHistory)
    (deposit : Int) (U : SummaryTable)
    (h : tableMetrics token_prices deposit = .ok U) :
    tableMetrics token_prices deposit = .ok U
    ∧ metricEnrich U deposit = .ok U := by
  refine ⟨h, ?_⟩
  unfold tableMetrics at h
  cases hdf : historical_prices_to_df token_prices with
  | error e =>
      rw [hdf] at h
      exact Except.noConfusion (show Except.error e = Except.ok U from h)
  | ok df =>
      rw [hdf] at h
      exact metricEnrich_idem
        ((tickersOf df).map (fun t => (t, summarize (groupOf t df)))) deposit U h

/-- C9 at the concrete single-ticker input. -/
theorem C9_table_metrics_deterministic_witness :
    tableMetrics rawC7 1000 = .ok
      ⟨[("AAA", ⟨20210101, 20210201, 20210115, 20210201, 100, 90, 150, 90⟩)],
       [("r_last", [9/10]), ("r_max", [3/2]), ("p_last", [-100]),
        ("p_max", [500])]⟩
    ∧ (tableMetrics rawC7 1000 = .ok
        ⟨[("AAA", ⟨20210101, 20210201, 20210115, 20210201, 100, 90, 150, 90⟩)],
         [("r_last", [9/10]), ("r_max", [3/2]), ("p_last", [-100]),
          ("p_max", [500])]⟩
      ∧ metricEnrich
          ⟨[("AAA", ⟨20210101, 20210201, 20210115, 20210201, 100, 90, 150, 90⟩)],
           [("r_last", [9/10]), ("r_max", [3/2]), ("p_last", [-100]),
            ("p_max", [500])]⟩ 1000
        = .ok
          ⟨[("AAA", ⟨20210101, 20210201, 20210115, 20210201, 100, 90, 150, 90⟩)],
           [("r_last", [9/10]), ("r_max", [3/2]), ("p_last", [-100]),
            ("p_max", [500])]⟩) :=
  ⟨by with_unfolding_all rfl,
    C9_table_metrics_deterministic rawC7 1000 _ (by with_unfolding_all rfl)⟩

theorem calculate_price_ratio_def (T : SummaryTable) :
    calculate_price_ratio T
      = setColumn
          (setColumn T "r_last"
            (T.rows.map (fun ts => ts.snd.price_last / ts.snd.price_first)))
          "r_max" (T.rows.map (fun ts => ts.snd.price_max / ts.snd.price_first)) :=
  rfl

/-- C10: on a summary table with none of the derived column names present,
`calculate_price_ratio` adds exactly the columns `r_last` and `r_max` and
`calculate_profit` adds exactly `p_last` and `p_max`; the ticker rows and
every previously existing column are returned unchanged in the enriched
table. -/
theorem C10_enrichment_frame (T : SummaryTable) (deposit : Int)
    (h1 : "r_last" ∉ T.extra.map Prod.fst)
    (h2 : "r_max" ∉ T.extra.map Prod.fst)
    (h3 : "p_last" ∉ T.extra.map Prod.fst)
    (h4 : "p_max" ∉ T.extra.map Prod.fst) :
    (calculate_price_ratio T).rows = T.rows
    ∧ (calculate_price_ratio T).extra.map Prod.fst
        = T.extra.map Prod.fst ++ ["r_last", "r_max"]
    ∧ (∀ m, m ≠ "r_last" → m ≠ "r_max" →
        getColumn (calculate_price_ratio T) m = getColumn T m)
    ∧ ∃ U, calculate_profit (calculate_price_ratio T) deposit = .ok U
        ∧ U.rows = T.rows
        ∧ U.extra.map Prod.fst
            = T.extra.map Prod.fst ++ ["r_last", "r_max", "p_last", "p_max"]
        ∧ ∀ m, m ≠ "p_last" → m ≠ "p_max" →
            getColumn U m = getColumn (calculate_price_ratio T) m := by
  have hfresh1 := names_setColumn_fresh T "r_last"
    (T.rows.map (fun ts => ts.snd.price_last / ts.snd.price_first)) h1
  have h2' : "r_max" ∉ (setColumn T "r_last"
      (T.rows.map (fun ts => ts.snd.price_last / ts.snd.price_first))).extra.map
        Prod.fst := by
    rw [hfresh1]
    simp [h2]
  have hnames : (calculate_price_ratio T).extra.map Prod.fst
      = T.extra.map Prod.fst ++ ["r_last", "r_max"] := by
    rw [calculate_price_ratio_def, names_setColumn_fresh _ _ _ h2', hfresh1,
      List.append_assoc]
    rfl
  have hrows : (calculate_price_ratio T).rows = T.rows := by
    rw [calculate_price_ratio_def, rows_setColumn, rows_setColumn]
  refine ⟨hrows, hnames, ?_, ?_⟩
  · intro m hm1 hm2
    rw [calculate_price_ratio_def, getColumn_setColumn_ne _ _ _ _ hm2,
      getColumn_setColumn_ne _ _ _ _ hm1]
  · have h3' : "p_last" ∉ (calculate_price_ratio T).extra.map Prod.fst := by
      rw [hnames]
      simp [h3]
    have hfresh3 := names_setColumn_fresh (calculate_price_ratio T) "p_last"
      ((T.rows.map (fun ts => ts.snd.price_last / ts.snd.price_first)).map
        (fun r => r * (deposit : ℚ) - (deposit : ℚ))) h3'
    have h4' : "p_max" ∉ (setColumn (calculate_price_ratio T) "p_last"
        ((T.rows.map (fun ts => ts.snd.price_last / ts.snd.price_first)).map
          (fun r => r * (deposit : ℚ) - (deposit : ℚ)))).extra.map Prod.fst := by
      rw [hfresh3, hnames]
      simp [h4]
    refine ⟨_, calculate_profit_of_getColumns (calculate_price_ratio T) deposit
      _ _ (ratio_getColumn_r_last T) (ratio_getColumn_r_max T), ?_, ?_, ?_⟩
    · rw [rows_setColumn, rows_setColumn, hrows]
    · rw [names_setColumn_fresh _ _ _ h4', hfresh3, hnames,
        List.append_assoc, List.append_assoc]
      rfl
    · intro m hm1 hm2
      rw [getColumn_setColumn_ne _ _ _ _ hm2, getColumn_setColumn_ne _ _ _ _ hm1]

/-- A summary table carrying one pre-existing flat column `old`. -/
def preexistingTable : SummaryTable :=
  ⟨[("AAA", ⟨20210101, 20210201, 20210115, 20210201, 100, 90, 150, 90⟩)],
   [("old", [42])]⟩

/-- C10 at a concrete table with a pre-existing column. -/
theorem C10_enrichment_frame_witness :
    ("r_last" ∉ preexistingTable.extra.map Prod.fst
      ∧ "r_max" ∉ preexistingTable.extra.map Prod.fst
      ∧ "p_last" ∉ preexistingTable.extra.map Prod.fst
      ∧ "p_max" ∉ preexistingTable.extra.map Prod.fst)
    ∧ ((calculate_price_ratio preexistingTable).rows = preexistingTable.rows
      ∧ (calculate_price_ratio preexistingTable).extra.map Prod.fst
          = preexistingTable.extra.map Prod.fst ++ ["r_last", "r_max"]
      ∧ (∀ m, m ≠ "r_last" → m ≠ "r_max" →
          getColumn (calculate_price_ratio preexistingTable) m
            = getColumn preexistingTable m)
      ∧ ∃ U, calculate_profit (calculate_price_ratio preexistingTable) 1000
            = .ok U
          ∧ U.rows = preexistingTable.rows
          ∧ U.extra.map Prod.fst
              = preexistingTable.extra.map Prod.fst
                ++ ["r_last", "r_max", "p_last", "p_max"]
          ∧ ∀ m, m ≠ "p_last" → m ≠ "p_max" →
              getColumn U m
                = getColumn (calculate_price_ratio preexistingTable) m) :=
  ⟨⟨by decide, by decide, by decide, by decide⟩,
    C10_enrichment_frame preexistingTable 1000
      (by decide) (by decide) (by decide) (by decide)⟩
